import Mathlib

/-!
Verification of the contember/ai-proxy request-routing core against its
natural-language specification.  The Go sources (package llm_resolver and
its discovery subpackage) and the TypeScript sources (the Bun proxy and the
Traefik config generator) are shallowly embedded below: pure functions are
translated to Lean functions, filesystem and HTTP effects become explicit
state passing, and external libraries (the Go regexp and encoding/json
packages, the container runtime, the LLM endpoint) are abstracted as
function parameters.
-/

namespace AiProxy

/-- Stable descriptor of a process used for dynamic port rebinding.
The struct declaration itself is not among the provided sources; its two
fields are reconstructed from every use site (port_resolver.go accesses
identifier.Workdir and identifier.CommandPattern, resolver.go constructs it
from a workdir and a command pattern string). -/
structure ProcessIdentifier where
  workdir : String
  commandPattern : String
deriving Repr, DecidableEq

/-- RouteMapping from the Go cache (log_buffer.go) extended with the
optional ProcessIdentifier field that handler.go and resolver.go use. -/
structure RouteMapping where
  type_ : String
  target : String
  port : Int
  createdAt : String
  llmReason : String
  processIdentifier : Option ProcessIdentifier
deriving Repr, DecidableEq

/-- LocalProcess from llm_resolver/discovery/processes.go. -/
structure LocalProcess where
  port : Int
  pid : Int
  command : String
  args : String
  workdir : String
deriving Repr, DecidableEq

/-! ### String helpers

Counterparts of the string operations the sources use (strings.HasSuffix,
strings.HasPrefix, strings.TrimSuffix by one separator, endsWith),
expressed over character lists so that they evaluate inside the kernel. -/

def strEndsWith (s suffix : String) : Bool :=
  decide (suffix.toList <:+ s.toList)

def strStartsWith (s pre : String) : Bool :=
  decide (pre.toList <+: s.toList)

def strDropLast (s : String) : String :=
  String.mk s.toList.dropLast

/-! ### Port rebinding (port_resolver.go) -/

/-- matchesWorkdir from port_resolver.go: empty-string guard, then trim a
single trailing slash from each side, then equality or either-direction
prefix-with-separator check. -/
def matchesWorkdir (processWorkdir targetWorkdir : String) : Bool :=
  if processWorkdir = "" || targetWorkdir = "" then false
  else
    let p := if strEndsWith processWorkdir "/" then strDropLast processWorkdir
      else processWorkdir
    let t := if strEndsWith targetWorkdir "/" then strDropLast targetWorkdir
      else targetWorkdir
    if p = t then true
    else if strStartsWith p (t ++ "/") then true
    else if strStartsWith t (p ++ "/") then true
    else false

/-- matchesCommand from port_resolver.go.  The Go regexp engine is
abstracted as `rc`: `rc pattern = none` models a pattern that fails to
compile, in which case the code degrades to a literal substring test
against the command or the args. -/
def matchesCommand (rc : String → Option (String → Bool)) (proc : LocalProcess)
    (pattern : String) : Bool :=
  match rc pattern with
  | some re => re proc.command || re proc.args
  | none =>
      decide (pattern.toList <:+: proc.command.toList) ||
        decide (pattern.toList <:+: proc.args.toList)

/-- The candidate filter inside ResolveProcessPort: keep processes whose
workdir matches and, when a command pattern is given, whose command or args
match it. -/
def resolveCandidates (rc : String → Option (String → Bool))
    (identifier : ProcessIdentifier) (processes : List LocalProcess) : List LocalProcess :=
  processes.filter fun proc =>
    matchesWorkdir proc.workdir identifier.workdir &&
      (identifier.commandPattern = "" || matchesCommand rc proc identifier.commandPattern)

/-- ResolveProcessPort from port_resolver.go, over an already-obtained
process snapshot (the ProcessCache read is the caller's concern). -/
def resolveProcessPort (rc : String → Option (String → Bool))
    (identifier : Option ProcessIdentifier) (processes : List LocalProcess) :
    Except String Int :=
  match identifier with
  | none => .error "process identifier with workdir is required"
  | some ident =>
      if ident.workdir = "" then .error "process identifier with workdir is required"
      else
        match resolveCandidates rc ident processes with
        | [] => .error "no process found matching workdir"
        | best :: rest =>
            .ok (rest.foldl (fun b c => if c.port < b.port then c else b) best).port

/-! ### Admission check (handler.go ServeHTTP, the tls-check branch) -/

/-- The status code of the admission-check branch.  `domainParam` is the
raw query lookup: `none` when the request has no domain parameter, `some s`
for a present parameter with value `s` (Go's Query().Get flattens both
none and empty to the empty string, which the code then replaces by the
extracted hostname). -/
def tlsCheckStatus (domainParam : Option String) (hostname : String) : Nat :=
  let domain := domainParam.getD ""
  let domain := if domain = "" then hostname else domain
  if strEndsWith domain ".localhost" then 200 else 403

/-! ### Mapping CRUD (handler.go handleMappingsAPI, PUT branch) -/

/-- The JSON body of a PUT request as Go decodes it. -/
structure PutBody where
  type_ : String
  target : String
  port : Int
deriving Repr, DecidableEq

/-- Observable outcome of the PUT branch: response status, the mapping
passed to Cache.Set (none when Set was never called), and whether
Cache.Save was attempted. -/
structure PutOutcome where
  status : Nat
  setMapping : Option RouteMapping
  saveAttempted : Bool
deriving Repr, DecidableEq

/-- The PUT branch of handleMappingsAPI.  `body = none` models a JSON
decoding failure; `now` is the timeNow() value; `saveOk` is whether
Cache.Save succeeds.  Set runs before Save, so the mapping is stored even
when persisting fails. -/
def handleMappingsPut (body : Option PutBody) (now : String) (saveOk : Bool) : PutOutcome :=
  match body with
  | none => ⟨400, none, false⟩
  | some b =>
      if b.type_ ≠ "process" ∧ b.type_ ≠ "docker" then ⟨400, none, false⟩
      else
        let mapping : RouteMapping :=
          ⟨b.type_, b.target, b.port, now, "Manually edited", none⟩
        if saveOk then ⟨200, some mapping, true⟩ else ⟨500, some mapping, true⟩

/-! ### Upstream address construction (handler.go buildUpstreamURL) -/

/-- buildUpstreamURL from handler.go, returning the upstream host and port.
External collaborators are parameters: `rebind` is the outcome of
ResolveProcessPort for the mapping's identifier, `published` the outcome of
GetContainerHostAddress, `containerIp` the outcome of GetContainerIP
(an error or an empty string both mean the IP is unresolvable).  The
processCache nil-guard of the Go code is dropped: Provision always
installs the cache, so in a provisioned module the guard is true. -/
def buildUpstreamURL (rebind : Except String Int) (published : Option (String × Int))
    (containerIp : Except String String) (mapping : RouteMapping) :
    Except String (String × Int) :=
  if mapping.type_ = "process" then
    let port :=
      match mapping.processIdentifier with
      | some _ =>
          match rebind with
          | .ok p => p
          | .error _ => mapping.port
      | none => mapping.port
    .ok ("127.0.0.1", port)
  else
    match published with
    | some hp => .ok hp
    | none =>
        match containerIp with
        | .ok ip =>
            if ip = "" then .error "cannot resolve IP for container"
            else .ok (ip, mapping.port)
        | .error _ => .error "cannot resolve IP for container"

/-! ### Mapping store persistence (log_buffer.go Cache.Load / Cache.Save)

The on-disk state is modelled as an association list of file contents plus
the set of created directories.  encoding/json is external: MarshalIndent
is a parameter (the code calls it with prefix "" and indent two spaces) and
Unmarshal is a parameter returning either the decoded map or an error. -/

/-- The mapping table as an association list from hostname to mapping. -/
abbrev Mappings := List (String × RouteMapping)

/-- In-memory model of the filesystem touched by the cache. -/
structure FsState where
  files : List (String × String)
  dirs : List String
deriving Repr, DecidableEq

def fsRead (fs : FsState) (path : String) : Option String :=
  (fs.files.find? fun p => p.1 = path).map (·.2)

def fsWrite (fs : FsState) (path content : String) : FsState :=
  { fs with files := (path, content) :: fs.files.filter fun p => p.1 ≠ path }

def fsRemove (fs : FsState) (path : String) : FsState :=
  { fs with files := fs.files.filter fun p => p.1 ≠ path }

/-- os.Rename on the success path: the source exists and replaces the
destination. -/
def fsRename (fs : FsState) (src dst : String) : FsState :=
  match fsRead fs src with
  | none => fs
  | some content => fsWrite (fsRemove fs src) dst content

def fsMkdirAll (fs : FsState) (dir : String) : FsState :=
  { fs with dirs := dir :: fs.dirs }

/-- filepath.Dir for the slash-separated paths the cache uses: everything
before the last separator, "." when there is none, "/" at the root. -/
def filepathDir (p : String) : String :=
  match p.toList.reverse.dropWhile (fun c => c ≠ '/') with
  | [] => "."
  | _ :: rest => if rest = [] then "/" else String.mk rest.reverse

/-- Cache.Save from log_buffer.go: marshal with two-space indent, create
the containing directory, write a temporary file, rename it over the
target. -/
def cacheSave (marshalIndent : String → String → Mappings → String)
    (fs : FsState) (filePath : String) (mappings : Mappings) : FsState :=
  let data := marshalIndent "" "  " mappings
  let fs := fsMkdirAll fs (filepathDir filePath)
  let tmpFile := filePath ++ ".tmp"
  let fs := fsWrite fs tmpFile data
  fsRename fs tmpFile filePath

/-- Cache.Load from log_buffer.go: a missing file yields the empty map with
no error; otherwise the unmarshal outcome (including its error on malformed
JSON) is returned as is. -/
def cacheLoad (unmarshal : String → Except String Mappings)
    (fs : FsState) (filePath : String) : Except String Mappings :=
  match fsRead fs filePath with
  | none => .ok []
  | some data => unmarshal data

/-! ### Traefik-style config export (the TypeScript config generator) -/

structure TraefikRouter where
  rule : String
  service : String
  priority : Option Int
  tls : Bool
deriving Repr, DecidableEq

structure TraefikService where
  url : String
deriving Repr, DecidableEq

/-- JavaScript object assignment on a string-keyed record: replace the
value in place when the key exists, append otherwise. -/
def upsert {α : Type} (l : List (String × α)) (k : String) (v : α) : List (String × α) :=
  if l.any fun p => p.1 = k then
    l.map fun p => if p.1 = k then (k, v) else p
  else l ++ [(k, v)]

/-- hostnameToServiceName: dots and colons become dashes. -/
def hostnameToServiceName (hostname : String) : String :=
  String.mk (hostname.toList.map fun c => if c = '.' || c = ':' then '-' else c)

/-- isValidHostname: keys containing a colon are synthetic related-service
mappings, not real hostnames. -/
def isValidHostname (hostname : String) : Bool :=
  !(hostname.toList.contains ':')

/-- The Host rule emitted for a real hostname. -/
def hostRule (hostname : String) : String :=
  "Host(`" ++ hostname ++ "`)"

/-- buildTargetUrl of the config generator.  `getIp` abstracts
getContainerIp; `none` covers both a lookup failure and an empty result
(falsy in the TypeScript), in which case the container name is used. -/
def buildTargetUrlGen (getIp : String → Option String) (m : RouteMapping) : String :=
  if m.type_ = "process" then "http://127.0.0.1:" ++ toString m.port
  else
    match getIp m.target with
    | none => "http://" ++ m.target ++ ":" ++ toString m.port
    | some ip => "http://" ++ ip ++ ":" ++ toString m.port

/-- The router entry emitted for a real hostname. -/
def routerFor (hostname : String) : TraefikRouter :=
  { rule := hostRule hostname, service := hostnameToServiceName hostname,
    priority := none, tls := true }

/-- The service entry emitted for a mapping. -/
def serviceFor (getIp : String → Option String) (m : RouteMapping) : TraefikService :=
  { url := buildTargetUrlGen getIp m }

/-- One loop iteration of generateTraefikConfig: synthetic keys are
skipped, real keys add a router and a service under the sanitized name. -/
def addTraefikMapping (getIp : String → Option String)
    (acc : List (String × TraefikRouter) × List (String × TraefikService))
    (kv : String × RouteMapping) :
    List (String × TraefikRouter) × List (String × TraefikService) :=
  if isValidHostname kv.1 then
    let serviceName := hostnameToServiceName kv.1
    (upsert acc.1 serviceName (routerFor kv.1),
      upsert acc.2 serviceName (serviceFor getIp kv.2))
  else acc

def fallbackRouter : TraefikRouter :=
  { rule := "HostRegexp(`.+\\.localhost`)", service := "fallback-resolver",
    priority := some 1, tls := true }

def fallbackService (resolverHost resolverPort : String) : TraefikService :=
  { url := "http://" ++ resolverHost ++ ":" ++ resolverPort }

/-- Every router the export loop can emit: the fallback entry or the entry
of some real hostname. -/
def routerRuleOk (pr : String × TraefikRouter) : Prop :=
  pr.2 = fallbackRouter ∨ ∃ h, isValidHostname h = true ∧ pr.2 = routerFor h

/-- generateTraefikConfig: routers and services for every stored real
hostname, plus the always-present fallback-resolver entry. -/
def generateTraefikConfig (getIp : String → Option String)
    (mappings : List (String × RouteMapping)) (resolverHost resolverPort : String) :
    List (String × TraefikRouter) × List (String × TraefikService) :=
  let acc := mappings.foldl (addTraefikMapping getIp) ([], [])
  (upsert acc.1 "fallback-resolver" fallbackRouter,
    upsert acc.2 "fallback-resolver" (fallbackService resolverHost resolverPort))

/-! ### Single-flight resolution (handler.go ServeHTTP, resolveGroup.Do)

N request handlers for the same unresolved key run concurrently.  Each
handler executes: read the cache; on a miss enter resolveGroup.Do, either
becoming the leader of the key's single-flight slot or joining the
in-flight call; the leader re-checks the cache inside the slot, invokes
the resolver gateway only on a genuine miss, stores the result and
broadcasts it to every waiter.  The interleaving of these atomic actions
is modelled as a step relation on a shared state; `gw` is the mapping the
gateway returns for the key. -/

/-- Program counter of one request handler. -/
inductive HPC where
  | start
  | toDo
  | waiting
  | leading
  | done (result : RouteMapping)
deriving Repr, DecidableEq

/-- Shared state: the handlers' program counters, the mapping cache entry
for the key, whether a single-flight call is in flight, and how many times
the resolver gateway has been invoked. -/
structure SFState where
  handlers : List HPC
  cache : Option RouteMapping
  leaderActive : Bool
  calls : Nat
deriving Repr, DecidableEq

/-- Broadcast of the leader's result to every waiter in the slot. -/
def wake (m : RouteMapping) (pc : HPC) : HPC :=
  match pc with
  | .waiting => .done m
  | other => other

/-- Initial state: n handlers about to run, an unresolved key. -/
def sfInit (n : Nat) : SFState :=
  ⟨List.replicate n .start, none, false, 0⟩

/-- One atomic action of one handler (without the force parameter, as in
the claim: the key is unresolved and the requests are plain). -/
inductive SFStep (gw : RouteMapping) : SFState → SFState → Prop
  | readHit (s : SFState) (i : Nat) (m : RouteMapping) :
      s.handlers.get? i = some .start → s.cache = some m →
      SFStep gw s { s with handlers := s.handlers.set i (.done m) }
  | readMiss (s : SFState) (i : Nat) :
      s.handlers.get? i = some .start → s.cache = none →
      SFStep gw s { s with handlers := s.handlers.set i .toDo }
  | enterJoin (s : SFState) (i : Nat) :
      s.handlers.get? i = some .toDo → s.leaderActive = true →
      SFStep gw s { s with handlers := s.handlers.set i .waiting }
  | enterLead (s : SFState) (i : Nat) :
      s.handlers.get? i = some .toDo → s.leaderActive = false →
      SFStep gw s { s with handlers := s.handlers.set i .leading, leaderActive := true }
  | leadHit (s : SFState) (i : Nat) (m : RouteMapping) :
      s.handlers.get? i = some .leading → s.cache = some m →
      SFStep gw s { s with handlers := ((s.handlers.set i (.done m)).map (wake m)),
                           leaderActive := false }
  | leadCall (s : SFState) (i : Nat) :
      s.handlers.get? i = some .leading → s.cache = none →
      SFStep gw s { handlers := ((s.handlers.set i (.done gw)).map (wake gw)),
                    cache := some gw, leaderActive := false, calls := s.calls + 1 }

/-- States reachable from n handlers racing on one unresolved key. -/
inductive SFReach (gw : RouteMapping) (n : Nat) : SFState → Prop
  | init : SFReach gw n (sfInit n)
  | step {s t : SFState} : SFReach gw n s → SFStep gw s t → SFReach gw n t

/-- The inductive invariant of the race: before the gateway has answered,
the cache is empty, no call has been made and nobody has finished; after,
the cache holds the gateway's answer, exactly one call was made, and every
finished handler carries that answer. -/
def sfInv (gw : RouteMapping) (s : SFState) : Prop :=
  (s.cache = none → s.calls = 0 ∧ ∀ pc ∈ s.handlers, ∀ m, pc ≠ HPC.done m) ∧
  (∀ m, s.cache = some m → m = gw ∧ s.calls = 1) ∧
  (∀ pc ∈ s.handlers, ∀ m, pc = HPC.done m → m = gw)

/-! ### Reserved-query stripping (the TypeScript handleRequest)

The normal proxy path reads force and prompt from the query and, when
either is present, deletes them through URLSearchParams before rebuilding
the forwarded URL.  URLSearchParams is the WHATWG
application/x-www-form-urlencoded machinery, modelled here at the
character level over the raw query string (without the leading question
mark): parsing splits on ampersands, splits each piece at the first
equals sign and percent-plus-decodes both halves; serialization
percent-plus-encodes and joins with ampersands. -/

def isHexDigitChar (c : Char) : Bool :=
  (48 ≤ c.toNat && c.toNat ≤ 57) || (65 ≤ c.toNat && c.toNat ≤ 70) ||
    (97 ≤ c.toNat && c.toNat ≤ 102)

def hexVal (c : Char) : Nat :=
  if 48 ≤ c.toNat && c.toNat ≤ 57 then c.toNat - 48
  else if 65 ≤ c.toNat && c.toNat ≤ 70 then c.toNat - 55
  else c.toNat - 87

/-- Uppercase hex digit for a nibble. -/
def hexDigitChar (n : Nat) : Char :=
  (['0', '1', '2', '3', '4', '5', '6', '7',
    '8', '9', 'A', 'B', 'C', 'D', 'E', 'F']).getD n '0'

/-- Percent-plus decoding of one form-urlencoded component. -/
def decodeWWW : List Char → List Char
  | [] => []
  | '+' :: rest => ' ' :: decodeWWW rest
  | '%' :: a :: b :: rest =>
      if isHexDigitChar a && isHexDigitChar b then
        Char.ofNat (16 * hexVal a + hexVal b) :: decodeWWW rest
      else '%' :: decodeWWW (a :: b :: rest)
  | c :: rest => c :: decodeWWW rest

/-- Characters the form-urlencoded serializer leaves unescaped. -/
def wwwUnreserved (c : Char) : Bool :=
  c.isAlphanum || c = '*' || c = '-' || c = '.' || c = '_'

/-- Percent-plus encoding of one character. -/
def encodeWWWChar (c : Char) : List Char :=
  if wwwUnreserved c then [c]
  else if c = ' ' then ['+']
  else ['%', hexDigitChar (c.toNat / 16), hexDigitChar (c.toNat % 16)]

def encodeWWW (l : List Char) : List Char :=
  (l.map encodeWWWChar).flatten

/-- Split a query string on ampersands (the empty string yields one empty
piece, as in the WHATWG parser). -/
def splitAmp : List Char → List (List Char)
  | [] => [[]]
  | c :: rest =>
      if c = '&' then [] :: splitAmp rest
      else
        match splitAmp rest with
        | [] => [[c]]
        | piece :: more => (c :: piece) :: more

/-- Join pieces with ampersand separators (inverse of splitAmp on
ampersand-free pieces). -/
def joinAmp : List (List Char) → List Char
  | [] => []
  | [piece] => piece
  | piece :: more => piece ++ '&' :: joinAmp more

/-- Split a piece at its first equals sign; a piece without one is all
name with an empty value. -/
def splitFirstEq (piece : List Char) : List Char × List Char :=
  match piece.dropWhile (fun c => c ≠ '=') with
  | [] => (piece, [])
  | _ :: rest => (piece.takeWhile (fun c => c ≠ '='), rest)

/-- Decode one ampersand-separated piece into a name-value pair (empty
pieces are skipped). -/
def parsePiece (piece : List Char) : Option (List Char × List Char) :=
  if piece = [] then none
  else
    let nv := splitFirstEq piece
    some (decodeWWW nv.1, decodeWWW nv.2)

/-- Parse a raw query string into its name-value pairs. -/
def parseQuery (q : List Char) : List (List Char × List Char) :=
  (splitAmp q).filterMap parsePiece

/-- Encode one name-value pair as a piece. -/
def wwwPiece (nv : List Char × List Char) : List Char :=
  encodeWWW nv.1 ++ '=' :: encodeWWW nv.2

/-- Serialize name-value pairs back to a raw query string. -/
def serializeQuery (pairs : List (List Char × List Char)) : List Char :=
  joinAmp (pairs.map wwwPiece)

/-- url.searchParams.has for the force flag. -/
def hasForceParam (q : List Char) : Bool :=
  (parseQuery q).any fun nv => nv.1 = ("force").toList

/-- The truthiness of the userPrompt binding: searchParams.get returns the
first prompt value or null, and the empty string is falsy. -/
def promptTruthy (q : List Char) : Bool :=
  match (parseQuery q).find? fun nv => nv.1 = ("prompt").toList with
  | some nv => nv.2 ≠ []
  | none => false

/-- A pair survives the two searchParams.delete calls. -/
def keepPair (nv : List Char × List Char) : Bool :=
  nv.1 ≠ ("force").toList && nv.1 ≠ ("prompt").toList

/-- The raw query of the URL forwarded upstream by the TypeScript
handleRequest: left untouched unless force is present or prompt is
present and non-empty, in which case both are deleted through
URLSearchParams and the remainder is re-serialized. -/
def upstreamQuery (q : List Char) : List Char :=
  if hasForceParam q || promptTruthy q then
    serializeQuery ((parseQuery q).filter keepPair)
  else q

/-- The specification's textual stripping: drop the ampersand-separated
sections whose name (the text before the first equals sign) is force or
prompt, and keep every other section verbatim. -/
def specStripQuery (q : List Char) : List Char :=
  joinAmp
    ((splitAmp q).filter fun piece =>
      piece.takeWhile (fun c => c ≠ '=') ≠ ("force").toList &&
        piece.takeWhile (fun c => c ≠ '=') ≠ ("prompt").toList)

/-! ### Statements of the specification's own wording

These definitions follow the specification text, for comparison with the
code-derived definitions above. -/

/-- Removing a single trailing slash, the operation matchesWorkdir
actually performs on each side. -/
def trimOneSlash (s : String) : String :=
  if strEndsWith s "/" then strDropLast s else s

/-- Removing every trailing slash, as the specification's wording
(trimming trailing slashes) reads. -/
def trimAllSlashes (s : String) : String :=
  String.mk (s.toList.reverse.dropWhile (fun c => c = '/')).reverse

/-- The workdir matcher as the specification words it: after trimming
trailing slashes, equality or either-direction extension by a
slash-separated suffix, with no emptiness guard. -/
def specMatchWorkdir (a b : String) : Bool :=
  let ta := trimAllSlashes a
  let tb := trimAllSlashes b
  ta = tb || strStartsWith ta (tb ++ "/") || strStartsWith tb (ta ++ "/")

/-- The admission check as the claim words it: the domain parameter when
present (even empty), the hostname only when the parameter is absent. -/
def specAdmissionStatus (domainParam : Option String) (hostname : String) : Nat :=
  let domain :=
    match domainParam with
    | some d => d
    | none => hostname
  if strEndsWith domain ".localhost" then 200 else 403

/-- The PUT validation the claim describes: kind in the process/container
set, non-empty target, port within bounds. -/
def specPutValid (b : PutBody) : Bool :=
  (b.type_ = "process" || b.type_ = "container") && b.target ≠ "" &&
    (1 ≤ b.port && b.port ≤ 65535)

/-! ### Concrete fixtures used by witnesses and counterexamples -/

/-- A regex engine on which every pattern fails to compile (exercising the
literal-substring fallback). -/
def rcNone : String → Option (String → Bool) := fun _ => none

def identFrontend : ProcessIdentifier := ⟨"/home/u/app", ""⟩

def procsFixture : List LocalProcess :=
  [⟨5174, 11, "node", "vite", "/home/u/app/frontend"⟩,
    ⟨5180, 12, "node", "server.js", "/home/u/app"⟩,
    ⟨9000, 13, "php", "", "/srv/other"⟩]

def mappingFixture : RouteMapping :=
  ⟨"process", "localhost", 3000, "2024-01-01T00:00:00Z", "vite dev server", none⟩

def mappingRebind : RouteMapping :=
  ⟨"process", "localhost", 5173, "2024-01-01T00:00:00Z", "vite dev server",
    some identFrontend⟩

def mappingDocker : RouteMapping :=
  ⟨"docker", "app-web", 80, "2024-01-01T00:00:00Z", "container", none⟩

/-- A container runtime lookup that knows no container. -/
def getIpNone : String → Option String := fun _ => none

/-- The state two racing handlers end in along the canonical interleaving
(miss, miss, lead, join, resolve). -/
def sfFinal : SFState :=
  ⟨[HPC.done mappingFixture, HPC.done mappingFixture], some mappingFixture, false, 1⟩

/-- Go's MarshalIndent abstracted for the witness: any concrete function
of the prefix, the indent and the map will do. -/
def marshalFixture : String → String → Mappings → String :=
  fun pre ind m => pre ++ ind ++ toString (m.map fun kv => kv.1)

/-- An unmarshal that rejects everything, exercising the malformed-JSON
path. -/
def unmarshalReject : String → Except String Mappings :=
  fun _ => .error "invalid character"

/-! ## Theorems -/

/-- C6 counterexample: on two empty strings the code returns false while
the claimed characterization (equality after trimming trailing slashes)
holds, so the claim as stated is refuted at a = b = "". -/
theorem matchesWorkdir_counterexample :
    matchesWorkdir "" "" = false ∧ specMatchWorkdir "" "" = true := by
  constructor <;> rfl

/-- C6 amended: matchesWorkdir returns true iff both strings are non-empty
and, after removing at most one trailing slash from each, they are equal
or one extends the other by a slash-separated suffix. -/
theorem matchesWorkdir_spec (a b : String) :
    matchesWorkdir a b = true ↔
      (a ≠ "" ∧ b ≠ "" ∧
        (trimOneSlash a = trimOneSlash b ∨
          strStartsWith (trimOneSlash a) (trimOneSlash b ++ "/") = true ∨
          strStartsWith (trimOneSlash b) (trimOneSlash a ++ "/") = true)) := by
  unfold matchesWorkdir trimOneSlash
  by_cases h1 : a = "" <;> by_cases h2 : b = "" <;> simp_all

/-- C6 witness: the amended characterization applied to a concrete
parent/subdirectory pair. -/
theorem matchesWorkdir_spec_witness :
    matchesWorkdir "/home/u/app/frontend" "/home/u/app" = true :=
  (matchesWorkdir_spec "/home/u/app/frontend" "/home/u/app").mpr
    (by refine ⟨by decide, by decide, Or.inr (Or.inl (by decide))⟩)

/-- C7 counterexample: with the domain parameter present but empty and a
hostname ending in .localhost, the code replies 200 although the claimed
rule (judge the parameter whenever it is present) demands 403. -/
theorem tls_check_counterexample :
    tlsCheckStatus (some "") "app.localhost" = 200 ∧
      specAdmissionStatus (some "") "app.localhost" = 403 := by
  constructor <;> decide

/-- C7 amended: the admission check replies 200 or 403, and replies 200
exactly when the domain parameter — or, when that parameter is absent or
empty, the extracted hostname — ends with the hardcoded .localhost
suffix. -/
theorem tls_check_spec (domainParam : Option String) (hostname : String) :
    (tlsCheckStatus domainParam hostname = 200 ∨ tlsCheckStatus domainParam hostname = 403) ∧
      (tlsCheckStatus domainParam hostname = 200 ↔
        strEndsWith (if domainParam.getD "" = "" then hostname else domainParam.getD "")
            ".localhost" = true) := by
  unfold tlsCheckStatus
  split <;> simp_all

/-- C7 witness: the amended rule applied to a present non-empty domain
parameter. -/
theorem tls_check_spec_witness :
    tlsCheckStatus (some "app.localhost") "other.example" = 200 :=
  (tls_check_spec (some "app.localhost") "other.example").2.mpr (by decide)

/-- C3 counterexample: a body with kind process, empty target and port 0
fails the claimed validation, yet the handler replies 200 and stores the
mapping. -/
theorem put_validation_counterexample :
    specPutValid ⟨"process", "", 0⟩ = false ∧
      (handleMappingsPut (some ⟨"process", "", 0⟩) "2024-01-01T00:00:00Z" true).status = 200 ∧
      (handleMappingsPut (some ⟨"process", "", 0⟩) "2024-01-01T00:00:00Z" true).setMapping ≠
        none := by
  refine ⟨rfl, rfl, ?_⟩
  intro h
  simp [handleMappingsPut] at h

/-- C3 amended: the PUT handler validates only that the body decodes and
that its kind is process or docker, replying 400 otherwise; when rejected
nothing is stored; when accepted it stores the mapping with rationale
"Manually edited" and the current timestamp, then replies 200, or 500 when
persisting fails (the mapping is stored even then). -/
theorem put_handler_spec (body : Option PutBody) (now : String) (saveOk : Bool) :
    ((handleMappingsPut body now saveOk).status = 400 ↔
      (body = none ∨ ∃ b, body = some b ∧ b.type_ ≠ "process" ∧ b.type_ ≠ "docker")) ∧
    (∀ b, body = some b → (b.type_ = "process" ∨ b.type_ = "docker") →
      handleMappingsPut body now saveOk =
        ⟨if saveOk then 200 else 500,
          some ⟨b.type_, b.target, b.port, now, "Manually edited", none⟩, true⟩) := by
  cases body with
  | none => simp [handleMappingsPut]
  | some b =>
      by_cases ht : b.type_ ≠ "process" ∧ b.type_ ≠ "docker"
      · constructor
        · refine iff_of_true ?_ (Or.inr ⟨b, rfl, ht⟩)
          simp [handleMappingsPut, if_pos ht]
        · intro b' hb hk
          injection hb with hb
          subst hb
          exact absurd hk (by tauto)
      · constructor
        · refine iff_of_false ?_ ?_
          · cases saveOk <;> simp [handleMappingsPut, if_neg ht]
          · rintro (h | ⟨b', hb', h1, h2⟩)
            · exact Option.noConfusion h
            · injection hb' with hb'
              subst hb'
              exact ht ⟨h1, h2⟩
        · intro b' hb hk
          injection hb with hb
          subst hb
          simp only [handleMappingsPut, if_neg ht]
          cases saveOk <;> rfl

/-- C3 witness: a valid docker body is accepted, stamped and stored. -/
theorem put_handler_spec_witness :
    handleMappingsPut (some ⟨"docker", "app-web", 8080⟩) "2024-01-01T00:00:00Z" true =
      ⟨200, some ⟨"docker", "app-web", 8080, "2024-01-01T00:00:00Z", "Manually edited", none⟩,
        true⟩ :=
  (put_handler_spec (some ⟨"docker", "app-web", 8080⟩) "2024-01-01T00:00:00Z" true).2
    _ rfl (Or.inr rfl)

/-- C10: a PUT whose body fails to decode, or whose kind is neither
process nor docker, is answered 400 with no Set and no Save. -/
theorem put_invalid_leaves_store (body : Option PutBody) (now : String) (saveOk : Bool)
    (h : body = none ∨ ∃ b, body = some b ∧ b.type_ ≠ "process" ∧ b.type_ ≠ "docker") :
    (handleMappingsPut body now saveOk).status = 400 ∧
      (handleMappingsPut body now saveOk).setMapping = none ∧
      (handleMappingsPut body now saveOk).saveAttempted = false := by
  rcases h with h | ⟨b, rfl, h1, h2⟩
  · subst h; simp [handleMappingsPut]
  · simp [handleMappingsPut, h1, h2]

/-- C10 witness: a body with the unsupported kind container is rejected
without touching the store. -/
theorem put_invalid_leaves_store_witness :
    (handleMappingsPut (some ⟨"container", "x", 80⟩) "t0" true).status = 400 ∧
      (handleMappingsPut (some ⟨"container", "x", 80⟩) "t0" true).setMapping = none ∧
      (handleMappingsPut (some ⟨"container", "x", 80⟩) "t0" true).saveAttempted = false :=
  put_invalid_leaves_store _ _ _ (Or.inr ⟨_, rfl, by decide, by decide⟩)

/-- C4: process mappings always build host 127.0.0.1 with the rebound port
when an identifier is present and rebinding succeeded, the stored port
otherwise; docker mappings use the published host address when one exists,
else the container IP with the stored port; the build fails exactly for a
docker mapping with no published port and no resolvable container IP. -/
theorem buildUpstreamURL_spec (rebind : Except String Int) (published : Option (String × Int))
    (containerIp : Except String String) (m : RouteMapping)
    (hk : m.type_ = "process" ∨ m.type_ = "docker") :
    (m.type_ = "process" → m.processIdentifier ≠ none → ∀ p, rebind = .ok p →
      buildUpstreamURL rebind published containerIp m = .ok ("127.0.0.1", p)) ∧
    (m.type_ = "process" → (m.processIdentifier = none ∨ ∃ e, rebind = .error e) →
      buildUpstreamURL rebind published containerIp m = .ok ("127.0.0.1", m.port)) ∧
    (m.type_ = "docker" → ∀ hp, published = some hp →
      buildUpstreamURL rebind published containerIp m = .ok hp) ∧
    (m.type_ = "docker" → published = none → ∀ ip, containerIp = .ok ip → ip ≠ "" →
      buildUpstreamURL rebind published containerIp m = .ok (ip, m.port)) ∧
    ((∃ e, buildUpstreamURL rebind published containerIp m = .error e) ↔
      (m.type_ = "docker" ∧ published = none ∧ ∀ ip, containerIp = .ok ip → ip = "")) := by
  rcases hk with hk | hk
  · refine ⟨?_, ?_, ?_, ?_, ?_⟩
    · intro _ hid p hp
      cases hpi : m.processIdentifier with
      | none => exact absurd hpi hid
      | some _ => simp [buildUpstreamURL, hk, hpi, hp]
    · intro _ hcase
      rcases hcase with hid | ⟨e, he⟩
      · simp [buildUpstreamURL, hk, hid]
      · cases hpi : m.processIdentifier <;> simp [buildUpstreamURL, hk, hpi, he]
    · intro hd; rw [hk] at hd; exact absurd hd (by decide)
    · intro hd; rw [hk] at hd; exact absurd hd (by decide)
    · constructor
      · intro ⟨e, he⟩
        cases hpi : m.processIdentifier <;>
          simp [buildUpstreamURL, hk, hpi] at he
      · intro ⟨hd, _⟩; rw [hk] at hd; exact absurd hd (by decide)
  · have hnp : m.type_ ≠ "process" := by rw [hk]; decide
    refine ⟨?_, ?_, ?_, ?_, ?_⟩
    · intro hp; exact absurd (hk ▸ hp) (by decide)
    · intro hp; exact absurd (hk ▸ hp) (by decide)
    · intro _ hp hpub; simp [buildUpstreamURL, if_neg hnp, hpub]
    · intro _ hpub ip hip hne
      simp [buildUpstreamURL, if_neg hnp, hpub, hip, hne]
    · constructor
      · intro ⟨e, he⟩
        refine ⟨hk, ?_, ?_⟩
        · cases hpub : published with
          | none => rfl
          | some hp => simp [buildUpstreamURL, if_neg hnp, hpub] at he
        · intro ip hip
          cases hpub : published with
          | some hp => simp [buildUpstreamURL, if_neg hnp, hpub] at he
          | none =>
              by_cases hie : ip = ""
              · exact hie
              · simp [buildUpstreamURL, if_neg hnp, hpub, hip, hie] at he
      · intro ⟨_, hpub, hip⟩
        cases hic : containerIp with
        | error e =>
            exact ⟨"cannot resolve IP for container",
              by simp [buildUpstreamURL, if_neg hnp, hpub, hic]⟩
        | ok ip =>
            have hie : ip = "" := hip ip hic
            exact ⟨"cannot resolve IP for container",
              by simp [buildUpstreamURL, if_neg hnp, hpub, hic, hie]⟩

/-- C4 witness: a process mapping with an identifier and a successful
rebind routes to loopback with the rebound port. -/
theorem buildUpstreamURL_spec_witness :
    buildUpstreamURL (.ok 5174) none (.error "docker unavailable") mappingRebind =
      .ok ("127.0.0.1", 5174) :=
  (buildUpstreamURL_spec (.ok 5174) none (.error "docker unavailable") mappingRebind
      (Or.inl rfl)).1 rfl (by decide) 5174 rfl

/-- The running minimum chosen by the fold in ResolveProcessPort is a
candidate with the least port. -/
theorem foldl_min_port (t : List LocalProcess) : ∀ h : LocalProcess,
    (t.foldl (fun b c => if c.port < b.port then c else b) h) ∈ h :: t ∧
    (t.foldl (fun b c => if c.port < b.port then c else b) h).port ≤ h.port ∧
    ∀ c ∈ t, (t.foldl (fun b c => if c.port < b.port then c else b) h).port ≤ c.port := by
  induction t with
  | nil => intro h; simp
  | cons c t ih =>
      intro h
      by_cases hcp : c.port < h.port
      · obtain ⟨hmem, hle, hall⟩ := ih c
        rw [List.foldl_cons, if_pos hcp]
        refine ⟨List.mem_cons_of_mem h hmem, by omega, ?_⟩
        intro x hx
        rcases List.mem_cons.mp hx with rfl | hx
        · exact hle
        · exact hall x hx
      · obtain ⟨hmem, hle, hall⟩ := ih h
        rw [List.foldl_cons, if_neg hcp]
        refine ⟨?_, hle, ?_⟩
        · rcases List.mem_cons.mp hmem with hm | hm
          · rw [hm]; exact List.mem_cons_self h (c :: t)
          · exact List.mem_cons_of_mem h (List.mem_cons_of_mem c hm)
        · intro x hx
          rcases List.mem_cons.mp hx with rfl | hx
          · omega
          · exact hall x hx

/-- C5: for an identifier with a non-empty workdir, port rebinding fails
exactly when no snapshot process passes the workdir filter and the
optional command filter, and otherwise returns the lowest port among the
candidates. -/
theorem resolveProcessPort_spec (rc : String → Option (String → Bool))
    (ident : ProcessIdentifier) (procs : List LocalProcess) (hw : ident.workdir ≠ "") :
    ((∃ e, resolveProcessPort rc (some ident) procs = .error e) ↔
        resolveCandidates rc ident procs = []) ∧
    (∀ p, resolveProcessPort rc (some ident) procs = .ok p →
        p ∈ (resolveCandidates rc ident procs).map (fun c => c.port) ∧
        ∀ c ∈ resolveCandidates rc ident procs, p ≤ c.port) := by
  have hres : resolveProcessPort rc (some ident) procs =
      (match resolveCandidates rc ident procs with
        | [] => .error "no process found matching workdir"
        | best :: rest =>
            .ok (rest.foldl (fun b c => if c.port < b.port then c else b) best).port) := by
    simp only [resolveProcessPort]
    rw [if_neg hw]
  rw [hres]
  cases hc : resolveCandidates rc ident procs with
  | nil => simp
  | cons best rest =>
      obtain ⟨hmem, hle, hall⟩ := foldl_min_port rest best
      constructor
      · simp
      · intro p hp
        simp only [Except.ok.injEq] at hp
        subst hp
        refine ⟨List.mem_map_of_mem _ hmem, ?_⟩
        intro c hcm
        rcases List.mem_cons.mp hcm with rfl | hcm
        · exact hle
        · exact hall c hcm

/-! Small filesystem-model lemmas shared by the persistence theorem. -/

theorem fsRead_write_self (fs : FsState) (p c : String) :
    fsRead (fsWrite fs p c) p = some c := by
  simp [fsRead, fsWrite, List.find?_cons_of_pos]

theorem find_key_filter (l : List (String × String)) (p q : String) (h : q ≠ p) :
    (l.filter fun x => x.1 ≠ p).find? (fun x => x.1 = q) = l.find? (fun x => x.1 = q) := by
  induction l with
  | nil => rfl
  | cons a l ih =>
      by_cases hp : a.1 = p
      · have hq : ¬(a.1 = q) := fun hqq => h (hqq ▸ hp ▸ rfl)
        simp only [List.filter_cons]
        rw [if_neg (by simpa using hp)]
        rw [List.find?_cons_of_neg _ (by simpa using hq)]
        exact ih
      · simp only [List.filter_cons]
        rw [if_pos (by simpa using hp)]
        by_cases hq : a.1 = q
        · rw [List.find?_cons_of_pos _ (by simpa using hq),
            List.find?_cons_of_pos _ (by simpa using hq)]
        · rw [List.find?_cons_of_neg _ (by simpa using hq),
            List.find?_cons_of_neg _ (by simpa using hq)]
          exact ih

theorem fsRead_write_other (fs : FsState) (p c q : String) (h : q ≠ p) :
    fsRead (fsWrite fs p c) q = fsRead fs q := by
  simp only [fsRead, fsWrite]
  rw [List.find?_cons_of_neg _ (by simpa using fun hpq : p = q => h hpq.symm)]
  rw [find_key_filter _ _ _ h]

theorem fsRead_remove_self (fs : FsState) (p : String) :
    fsRead (fsRemove fs p) p = none := by
  simp only [fsRead, fsRemove]
  rw [List.find?_eq_none.mpr]
  · rfl
  · intro x hx
    have := (List.mem_filter.mp hx).2
    simpa using this

/-- C5 witness: with two processes under the identifier workdir the lower
port wins, matching the stale-port-rebind scenario. -/
theorem resolveProcessPort_spec_witness :
    resolveProcessPort rcNone (some identFrontend) procsFixture = .ok 5174 ∧
      (5174 : Int) ∈ (resolveCandidates rcNone identFrontend procsFixture).map
        (fun c => c.port) :=
  ⟨rfl,
    ((resolveProcessPort_spec rcNone identFrontend procsFixture (by decide)).2 5174 rfl).1⟩

/-- C8: Save marshals the whole map with two-space indentation and lands it
at the cache path via a temporary file and a rename (no temporary file
survives), creating the containing directory; Load yields the empty map
without error on a missing file and surfaces the unmarshal error on
malformed content. -/
theorem cache_save_load_spec (marshalIndent : String → String → Mappings → String)
    (unmarshal : String → Except String Mappings) (fs : FsState) (filePath : String)
    (m : Mappings) :
    (fsRead (cacheSave marshalIndent fs filePath m) filePath =
        some (marshalIndent "" "  " m) ∧
      fsRead (cacheSave marshalIndent fs filePath m) (filePath ++ ".tmp") = none ∧
      filepathDir filePath ∈ (cacheSave marshalIndent fs filePath m).dirs) ∧
    (fsRead fs filePath = none → cacheLoad unmarshal fs filePath = .ok []) ∧
    (∀ data e, fsRead fs filePath = some data → unmarshal data = .error e →
      cacheLoad unmarshal fs filePath = .error e) := by
  have hlen : (".tmp" : String).length = 4 := rfl
  have hne : filePath ≠ filePath ++ ".tmp" := by
    intro h
    have := congrArg String.length h
    rw [String.length_append, hlen] at this
    omega
  set data := marshalIndent "" "  " m with hdata
  have hsave : cacheSave marshalIndent fs filePath m =
      fsWrite
        (fsRemove (fsWrite (fsMkdirAll fs (filepathDir filePath)) (filePath ++ ".tmp") data)
          (filePath ++ ".tmp"))
        filePath data := by
    simp only [cacheSave, fsRename]
    rw [fsRead_write_self]
  refine ⟨⟨?_, ?_, ?_⟩, ?_, ?_⟩
  · rw [hsave, fsRead_write_self]
  · rw [hsave, fsRead_write_other _ _ _ _ (fun h => hne h.symm), fsRead_remove_self]
  · rw [hsave]
    exact List.mem_cons_self _ _
  · intro h
    simp [cacheLoad, h]
  · intro data0 e h he
    simp [cacheLoad, h, he]

/-- C8 witness: saving one mapping into an empty filesystem makes the file
readable at the cache path with the marshalled content, and loading from
an empty filesystem yields the empty map. -/
theorem cache_save_load_spec_witness :
    fsRead
        (cacheSave marshalFixture ⟨[], []⟩ "/data/mappings.json"
          [("app.localhost", mappingFixture)])
        "/data/mappings.json" =
      some (marshalFixture "" "  " [("app.localhost", mappingFixture)]) ∧
    cacheLoad unmarshalReject ⟨[], []⟩ "/data/mappings.json" = .ok [] :=
  ⟨(cache_save_load_spec marshalFixture unmarshalReject ⟨[], []⟩ "/data/mappings.json"
      [("app.localhost", mappingFixture)]).1.1,
    (cache_save_load_spec marshalFixture unmarshalReject ⟨[], []⟩ "/data/mappings.json"
      [("app.localhost", mappingFixture)]).2.1 rfl⟩

/-! Record-upsert lemmas for the Traefik export. -/

theorem upsert_preserves {α : Type} (l : List (String × α)) (k : String) (v : α)
    (k' : String) (v' : α) (h : k' ≠ k) (hm : (k', v') ∈ l) : (k', v') ∈ upsert l k v := by
  unfold upsert
  split
  · exact List.mem_map.mpr ⟨(k', v'), hm, by simp [h]⟩
  · exact List.mem_append_left _ hm

theorem upsert_self {α : Type} (l : List (String × α)) (k : String) (v : α) :
    (k, v) ∈ upsert l k v := by
  unfold upsert
  split
  · next hany =>
      obtain ⟨x, hx, hxk⟩ := List.any_eq_true.mp hany
      have hxk2 : x.1 = k := of_decide_eq_true hxk
      exact List.mem_map.mpr ⟨x, hx, by simp [hxk2]⟩
  · exact List.mem_append_right _ (List.mem_cons_self _ _)

theorem mem_of_mem_upsert {α : Type} {l : List (String × α)} {k : String} {v : α}
    {x : String × α} (h : x ∈ upsert l k v) : x ∈ l ∨ x = (k, v) := by
  unfold upsert at h
  split at h
  · obtain ⟨y, hy, hyx⟩ := List.mem_map.mp h
    by_cases hk : y.1 = k
    · right; rw [← hyx]; simp [hk]
    · left
      have : (if y.1 = k then (k, v) else y) = y := if_neg hk
      rw [← hyx, this]
      exact hy
  · rcases List.mem_append.mp h with h | h
    · exact Or.inl h
    · exact Or.inr (List.mem_singleton.mp h)

/-- Entries whose sanitized name is hit by no later valid key survive the
export loop. -/
theorem traefik_foldl_preserve (getIp : String → Option String)
    (l : List (String × RouteMapping))
    (acc : List (String × TraefikRouter) × List (String × TraefikService))
    (n : String) (r : TraefikRouter) (s : TraefikService)
    (hr : (n, r) ∈ acc.1) (hs : (n, s) ∈ acc.2)
    (hn : ∀ kv ∈ l, isValidHostname kv.1 = true → hostnameToServiceName kv.1 ≠ n) :
    (n, r) ∈ (l.foldl (addTraefikMapping getIp) acc).1 ∧
      (n, s) ∈ (l.foldl (addTraefikMapping getIp) acc).2 := by
  induction l generalizing acc with
  | nil => exact ⟨hr, hs⟩
  | cons kv t ih =>
      rw [List.foldl_cons]
      refine ih _ ?_ ?_ (fun kv' h' hv' => hn kv' (List.mem_cons_of_mem _ h') hv')
      · unfold addTraefikMapping
        split
        · next hv =>
            exact upsert_preserves _ _ _ _ _ (fun hne => hn kv (List.mem_cons_self _ _) hv hne.symm) hr
        · exact hr
      · unfold addTraefikMapping
        split
        · next hv =>
            exact upsert_preserves _ _ _ _ _ (fun hne => hn kv (List.mem_cons_self _ _) hv hne.symm) hs
        · exact hs

/-- Every valid stored key whose sanitized name is unique among the valid
keys gets its router and service entry out of the export loop. -/
theorem traefik_foldl_mem (getIp : String → Option String)
    (l : List (String × RouteMapping))
    (acc : List (String × TraefikRouter) × List (String × TraefikService))
    (kv : String × RouteMapping) (hkv : kv ∈ l) (hv : isValidHostname kv.1 = true)
    (hnd : ((l.filter fun kv => isValidHostname kv.1).map
        fun kv => hostnameToServiceName kv.1).Nodup) :
    (hostnameToServiceName kv.1, routerFor kv.1) ∈ (l.foldl (addTraefikMapping getIp) acc).1 ∧
      (hostnameToServiceName kv.1, serviceFor getIp kv.2) ∈
        (l.foldl (addTraefikMapping getIp) acc).2 := by
  induction l generalizing acc with
  | nil => cases hkv
  | cons kv' t ih =>
      rw [List.foldl_cons]
      rcases List.mem_cons.mp hkv with rfl | hkv
      · have hfilter : (kv :: t).filter (fun kv => isValidHostname kv.1) =
            kv :: t.filter (fun kv => isValidHostname kv.1) := by
          rw [List.filter_cons, if_pos (by simpa using hv)]
        rw [hfilter, List.map_cons] at hnd
        have hnotin := (List.nodup_cons.mp hnd).1
        refine traefik_foldl_preserve getIp t _ _ _ _ ?_ ?_ ?_
        · unfold addTraefikMapping
          rw [if_pos hv]
          exact upsert_self _ _ _
        · unfold addTraefikMapping
          rw [if_pos hv]
          exact upsert_self _ _ _
        · intro kv2 h2 hv2 heq
          exact hnotin (heq ▸ List.mem_map_of_mem _ (List.mem_filter.mpr ⟨h2, by simpa using hv2⟩))
      · refine ih _ hkv ?_
        rw [List.filter_cons] at hnd
        by_cases hv' : isValidHostname kv'.1 = true
        · rw [if_pos (by simpa using hv'), List.map_cons] at hnd
          exact (List.nodup_cons.mp hnd).2
        · rwa [if_neg (by simpa using hv')] at hnd

/-- Every router the export loop emits is the fallback entry or a real
key's entry. -/
theorem traefik_foldl_rules (getIp : String → Option String)
    (l : List (String × RouteMapping))
    (acc : List (String × TraefikRouter) × List (String × TraefikService))
    (hacc : ∀ pr ∈ acc.1, routerRuleOk pr) :
    ∀ pr ∈ (l.foldl (addTraefikMapping getIp) acc).1, routerRuleOk pr := by
  induction l generalizing acc with
  | nil => exact hacc
  | cons kv t ih =>
      rw [List.foldl_cons]
      refine ih _ ?_
      intro pr hpr
      unfold addTraefikMapping at hpr
      split at hpr
      · next hv =>
          rcases mem_of_mem_upsert hpr with h | h
          · exact hacc pr h
          · exact Or.inr ⟨kv.1, hv, by rw [h]⟩
      · exact hacc pr hpr

theorem string_data_inj {a b : String} (h : a.data = b.data) : a = b := by
  cases a; cases b; exact congrArg String.mk h

theorem hostRule_inj {a b : String} (h : hostRule a = hostRule b) : a = b := by
  unfold hostRule at h
  have hd := congrArg String.data h
  rw [String.data_append, String.data_append, String.data_append, String.data_append] at hd
  exact string_data_inj (List.append_cancel_left (List.append_cancel_right hd))

theorem fallback_rule_ne (k : String) : fallbackRouter.rule ≠ hostRule k := by
  intro h
  have hd := congrArg (fun s => s.data.get? 4) h
  simp only [hostRule, String.data_append] at hd
  rw [List.get?_append (by
    simp only [List.length_append, List.length_cons, List.length_nil]
    omega)] at hd
  rw [List.get?_append (by decide)] at hd
  exact absurd hd (by decide)

/-- C9 counterexample: with stored keys a.localhost and a-localhost, both
colon-free, the sanitized service names collide and the later key
overwrites the earlier entry, so no router for a.localhost is exported
although the claim demands one for every colon-free key. -/
theorem traefik_inclusion_counterexample :
    isValidHostname "a.localhost" = true ∧
      ((generateTraefikConfig getIpNone
          [("a.localhost", mappingFixture), ("a-localhost", mappingFixture)]
          "127.0.0.1" "3001").1.any fun pr => pr.2.rule = hostRule "a.localhost") = false := by
  constructor <;> decide

/-- C9 amended: no exported router ever carries the Host rule of a key
containing a colon (synthetic keys are always excluded); and a colon-free
stored key receives its router and service entry whenever the sanitized
names (dots and colons to dashes) of the valid keys are pairwise distinct
and none equals fallback-resolver — with a collision the later entry
overwrites the earlier one. -/
theorem traefik_export_spec (getIp : String → Option String)
    (mappings : List (String × RouteMapping)) (resolverHost resolverPort : String) :
    (∀ k : String, k.toList.contains ':' = true →
      ∀ pr ∈ (generateTraefikConfig getIp mappings resolverHost resolverPort).1,
        pr.2.rule ≠ hostRule k) ∧
    (((mappings.filter fun kv => isValidHostname kv.1).map
        fun kv => hostnameToServiceName kv.1).Nodup →
      (∀ kv ∈ mappings, isValidHostname kv.1 = true →
        hostnameToServiceName kv.1 ≠ "fallback-resolver") →
      ∀ kv ∈ mappings, isValidHostname kv.1 = true →
        (hostnameToServiceName kv.1, routerFor kv.1) ∈
          (generateTraefikConfig getIp mappings resolverHost resolverPort).1 ∧
        (hostnameToServiceName kv.1, serviceFor getIp kv.2) ∈
          (generateTraefikConfig getIp mappings resolverHost resolverPort).2) := by
  constructor
  · intro k hk pr hpr heq
    have hrule : routerRuleOk pr := by
      rcases mem_of_mem_upsert hpr with h | h
      · exact traefik_foldl_rules getIp mappings ([], []) (by intro pr h; cases h) pr h
      · exact Or.inl (by rw [h])
    rcases hrule with h | ⟨h0, hv0, h0eq⟩
    · exact fallback_rule_ne k (h ▸ heq)
    · have : h0 = k := hostRule_inj (by rw [← heq, h0eq]; rfl)
      subst this
      unfold isValidHostname at hv0
      rw [hk] at hv0
      cases hv0
  · intro hnd hfb kv hkv hv
    obtain ⟨hr, hs⟩ := traefik_foldl_mem getIp mappings ([], []) kv hkv hv hnd
    constructor
    · exact upsert_preserves _ _ _ _ _ (hfb kv hkv hv) hr
    · exact upsert_preserves _ _ _ _ _ (hfb kv hkv hv) hs

/-- C9 witness: a single real key obtains its router and service entry. -/
theorem traefik_export_spec_witness :
    ("app-localhost", routerFor "app.localhost") ∈
        (generateTraefikConfig getIpNone [("app.localhost", mappingFixture)]
          "127.0.0.1" "3001").1 ∧
      ("app-localhost", serviceFor getIpNone mappingFixture) ∈
        (generateTraefikConfig getIpNone [("app.localhost", mappingFixture)]
          "127.0.0.1" "3001").2 := by
  have hn : hostnameToServiceName "app.localhost" = "app-localhost" := by decide
  have h := (traefik_export_spec getIpNone [("app.localhost", mappingFixture)]
      "127.0.0.1" "3001").2 (by decide) (by decide)
      ("app.localhost", mappingFixture) (List.mem_singleton.mpr rfl) (by decide)
  rw [hn] at h
  exact h

/-! Single-flight invariant proofs. -/

theorem sfInv_init (gw : RouteMapping) (n : Nat) : sfInv gw (sfInit n) := by
  refine ⟨fun _ => ⟨rfl, ?_⟩, ?_, ?_⟩
  · intro pc hpc m
    rw [(List.mem_replicate.mp hpc).2]
    intro h
    cases h
  · intro m hm
    cases hm
  · intro pc hpc m hm
    rw [(List.mem_replicate.mp hpc).2] at hm
    cases hm

theorem sfInv_step (gw : RouteMapping) {s t : SFState} (hstep : SFStep gw s t)
    (hinv : sfInv gw s) : sfInv gw t := by
  obtain ⟨h1, h2, h3⟩ := hinv
  cases hstep with
  | readHit i m hget hcache =>
      refine ⟨?_, h2, ?_⟩
      · intro hc
        rw [show ({ s with handlers := s.handlers.set i (HPC.done m) } : SFState).cache
            = s.cache from rfl, hcache] at hc
        cases hc
      · intro pc hpc m' hpcd
        rcases List.mem_or_eq_of_mem_set hpc with h | h
        · exact h3 pc h m' hpcd
        · rw [h] at hpcd
          injection hpcd with hm'
          exact hm' ▸ (h2 m hcache).1
  | readMiss i hget hcache =>
      obtain ⟨hc0, hnd⟩ := h1 hcache
      refine ⟨fun _ => ⟨hc0, ?_⟩, h2, ?_⟩
      · intro pc hpc m
        rcases List.mem_or_eq_of_mem_set hpc with h | h
        · exact hnd pc h m
        · rw [h]; intro hcontra; cases hcontra
      · intro pc hpc m hpcd
        rcases List.mem_or_eq_of_mem_set hpc with h | h
        · exact h3 pc h m hpcd
        · rw [h] at hpcd; cases hpcd
  | enterJoin i hget hla =>
      refine ⟨?_, h2, ?_⟩
      · intro hc
        obtain ⟨hc0, hnd⟩ := h1 hc
        refine ⟨hc0, ?_⟩
        intro pc hpc m
        rcases List.mem_or_eq_of_mem_set hpc with h | h
        · exact hnd pc h m
        · rw [h]; intro hcontra; cases hcontra
      · intro pc hpc m hpcd
        rcases List.mem_or_eq_of_mem_set hpc with h | h
        · exact h3 pc h m hpcd
        · rw [h] at hpcd; cases hpcd
  | enterLead i hget hla =>
      refine ⟨?_, h2, ?_⟩
      · intro hc
        obtain ⟨hc0, hnd⟩ := h1 hc
        refine ⟨hc0, ?_⟩
        intro pc hpc m
        rcases List.mem_or_eq_of_mem_set hpc with h | h
        · exact hnd pc h m
        · rw [h]; intro hcontra; cases hcontra
      · intro pc hpc m hpcd
        rcases List.mem_or_eq_of_mem_set hpc with h | h
        · exact h3 pc h m hpcd
        · rw [h] at hpcd; cases hpcd
  | leadHit i m hget hcache =>
      refine ⟨?_, h2, ?_⟩
      · intro hc
        rw [show ({ s with
              handlers := (s.handlers.set i (HPC.done m)).map (wake m),
              leaderActive := false } : SFState).cache = s.cache from rfl, hcache] at hc
        cases hc
      · intro pc hpc m' hpcd
        obtain ⟨pc0, hpc0, hw⟩ := List.mem_map.mp hpc
        cases pc0 with
        | waiting =>
            rw [show wake m HPC.waiting = HPC.done m from rfl] at hw
            rw [← hw] at hpcd
            injection hpcd with hm'
            exact hm' ▸ (h2 m hcache).1
        | done m0 =>
            rw [show wake m (HPC.done m0) = HPC.done m0 from rfl] at hw
            rw [← hw] at hpcd
            injection hpcd with hm'
            rcases List.mem_or_eq_of_mem_set hpc0 with h | h
            · exact hm' ▸ h3 _ h m0 rfl
            · injection h with hm0
              exact hm' ▸ hm0 ▸ (h2 m hcache).1
        | start =>
            rw [show wake m HPC.start = HPC.start from rfl] at hw
            rw [← hw] at hpcd
            cases hpcd
        | toDo =>
            rw [show wake m HPC.toDo = HPC.toDo from rfl] at hw
            rw [← hw] at hpcd
            cases hpcd
        | leading =>
            rw [show wake m HPC.leading = HPC.leading from rfl] at hw
            rw [← hw] at hpcd
            cases hpcd
  | leadCall i hget hcache =>
      obtain ⟨hc0, hnd⟩ := h1 hcache
      refine ⟨?_, ?_, ?_⟩
      · intro hc; cases hc
      · intro m' hm'
        injection hm' with hm'
        refine ⟨hm'.symm, ?_⟩
        show s.calls + 1 = 1
        omega
      · intro pc hpc m' hpcd
        obtain ⟨pc0, hpc0, hw⟩ := List.mem_map.mp hpc
        cases pc0 with
        | waiting =>
            rw [show wake gw HPC.waiting = HPC.done gw from rfl] at hw
            rw [← hw] at hpcd
            injection hpcd with hm'
            exact hm'.symm
        | done m0 =>
            rcases List.mem_or_eq_of_mem_set hpc0 with h | h
            · exact absurd rfl (hnd _ h m0)
            · injection h with hm0
              rw [hm0, show wake gw (HPC.done gw) = HPC.done gw from rfl] at hw
              rw [← hw] at hpcd
              injection hpcd with hm'
              exact hm'.symm
        | start =>
            rw [show wake gw HPC.start = HPC.start from rfl] at hw
            rw [← hw] at hpcd
            cases hpcd
        | toDo =>
            rw [show wake gw HPC.toDo = HPC.toDo from rfl] at hw
            rw [← hw] at hpcd
            cases hpcd
        | leading =>
            rw [show wake gw HPC.leading = HPC.leading from rfl] at hw
            rw [← hw] at hpcd
            cases hpcd

/-- C1: in every state reachable by any interleaving of n request handlers
racing on one unresolved key, the resolver gateway has been invoked at
most once, and every handler that has finished holds the gateway's single
answer, with exactly one invocation on record by then. -/
theorem singleflight_resolves_once (gw : RouteMapping) (n : Nat) (s : SFState)
    (h : SFReach gw n s) :
    s.calls ≤ 1 ∧
      ∀ pc ∈ s.handlers, ∀ m, pc = HPC.done m → m = gw ∧ s.calls = 1 := by
  have hinv : sfInv gw s := by
    induction h with
    | init => exact sfInv_init gw n
    | step hre hstep ih => exact sfInv_step gw hstep ih
  obtain ⟨h1, h2, h3⟩ := hinv
  constructor
  · cases hc : s.cache with
    | none => have := (h1 hc).1; omega
    | some m => have := (h2 m hc).2; omega
  · intro pc hpc m hm
    refine ⟨h3 pc hpc m hm, ?_⟩
    cases hc : s.cache with
    | none => exact absurd hm ((h1 hc).2 pc hpc m)
    | some m' => exact (h2 m' hc).2

/-- C1 witness: two handlers race to completion along a concrete
interleaving; the reachable final state shows one gateway call and both
handlers finished with that call's mapping. -/
theorem singleflight_resolves_once_witness : sfFinal.calls ≤ 1 ∧ sfFinal.calls = 1 := by
  have hreach : SFReach mappingFixture 2 sfFinal := by
    have r0 : SFReach mappingFixture 2 (sfInit 2) := SFReach.init
    have r1 := SFReach.step r0 (SFStep.readMiss (sfInit 2) 0 rfl rfl)
    have r2 := SFReach.step r1 (SFStep.readMiss _ 1 rfl rfl)
    have r3 := SFReach.step r2 (SFStep.enterLead _ 0 rfl rfl)
    have r4 := SFReach.step r3 (SFStep.enterJoin _ 1 rfl rfl)
    exact SFReach.step r4 (SFStep.leadCall _ 0 rfl rfl)
  have h := singleflight_resolves_once mappingFixture 2 sfFinal hreach
  exact ⟨h.1,
    (h.2 (HPC.done mappingFixture) (List.mem_cons_self _ _) mappingFixture rfl).2⟩

/-! Form-urlencoded round-trip lemmas for the reserved-query claim. -/

theorem char_toNat_ofNat_lt (n : Nat) (h : n < 256) : (Char.ofNat n).toNat = n := by
  have hv : n.isValidChar := Or.inl (by omega)
  simp only [Char.ofNat, hv, dite_true, Char.ofNatAux, Char.toNat]
  rfl

theorem hexDigitChar_spec : ∀ n < 16,
    isHexDigitChar (hexDigitChar n) = true ∧ hexVal (hexDigitChar n) = n := by decide

theorem hexDigitChar_ne (n : Nat) : hexDigitChar n ≠ '&' ∧ hexDigitChar n ≠ '=' := by
  rcases Nat.lt_or_ge n 16 with h | h
  · exact (by decide : ∀ k < 16, hexDigitChar k ≠ '&' ∧ hexDigitChar k ≠ '=') n h
  · unfold hexDigitChar
    rw [List.getD_eq_default _ _ (by
      simp only [List.length_cons, List.length_nil]
      omega)]
    decide

theorem hexVal_lt (c : Char) (h : isHexDigitChar c = true) : hexVal c < 16 := by
  unfold isHexDigitChar at h
  unfold hexVal
  simp only [Bool.or_eq_true, Bool.and_eq_true, decide_eq_true_eq] at h
  split
  · rename_i h1
    simp only [Bool.and_eq_true, decide_eq_true_eq] at h1
    omega
  · split
    · rename_i h1 h2
      simp only [Bool.and_eq_true, decide_eq_true_eq] at h2
      omega
    · rename_i h1 h2
      simp only [Bool.and_eq_true, decide_eq_true_eq, not_and, not_le] at h1 h2
      omega

theorem decodeWWW_cons_plain (c : Char) (h1 : c ≠ '+') (h2 : c ≠ '%') (rest : List Char) :
    decodeWWW (c :: rest) = c :: decodeWWW rest := by
  rw [decodeWWW.eq_def]
  split
  · rename_i heq; cases heq
  · rename_i heq; injection heq with h h'; exact absurd h h1
  · rename_i heq; injection heq with h h'; exact absurd h h2
  · rename_i x xs heq; injection heq with h h'; rw [h, h']

theorem decodeWWW_plus (rest : List Char) : decodeWWW ('+' :: rest) = ' ' :: decodeWWW rest := by
  rw [decodeWWW.eq_def]; rfl

theorem decodeWWW_hex (a b : Char) (rest : List Char)
    (hx : (isHexDigitChar a && isHexDigitChar b) = true) :
    decodeWWW ('%' :: a :: b :: rest) =
      Char.ofNat (16 * hexVal a + hexVal b) :: decodeWWW rest := by
  rw [decodeWWW.eq_def]; simp [hx]

theorem wwwUnreserved_ne (c : Char) (h : wwwUnreserved c = true) :
    c ≠ '+' ∧ c ≠ '%' ∧ c ≠ ' ' ∧ c ≠ '&' ∧ c ≠ '=' := by
  refine ⟨?_, ?_, ?_, ?_, ?_⟩ <;> intro he <;> rw [he] at h <;> exact absurd h (by decide)

theorem decode_encodeChar (c : Char) (hc : c.toNat < 256) (rest : List Char) :
    decodeWWW (encodeWWWChar c ++ rest) = c :: decodeWWW rest := by
  unfold encodeWWWChar
  by_cases h1 : wwwUnreserved c = true
  · rw [if_pos h1]
    obtain ⟨hp, hpc, _, _, _⟩ := wwwUnreserved_ne c h1
    exact decodeWWW_cons_plain c hp hpc rest
  · rw [if_neg h1]
    by_cases h2 : c = ' '
    · rw [if_pos h2, h2]
      exact decodeWWW_plus rest
    · rw [if_neg h2]
      have hdiv : c.toNat / 16 < 16 := by omega
      have hmod : c.toNat % 16 < 16 := by omega
      obtain ⟨hhex1, hval1⟩ := hexDigitChar_spec _ hdiv
      obtain ⟨hhex2, hval2⟩ := hexDigitChar_spec _ hmod
      show decodeWWW ('%' :: hexDigitChar (c.toNat / 16) :: hexDigitChar (c.toNat % 16) :: rest)
        = c :: decodeWWW rest
      rw [decodeWWW_hex _ _ _ (by rw [hhex1, hhex2]; rfl)]
      rw [hval1, hval2]
      have : 16 * (c.toNat / 16) + c.toNat % 16 = c.toNat := by omega
      rw [this, Char.ofNat_toNat]

theorem encodeWWW_cons (c : Char) (l : List Char) :
    encodeWWW (c :: l) = encodeWWWChar c ++ encodeWWW l := by
  simp [encodeWWW]

theorem decode_encode (l : List Char) (hl : ∀ c ∈ l, c.toNat < 256) :
    decodeWWW (encodeWWW l) = l := by
  induction l with
  | nil => rfl
  | cons c t ih =>
      rw [encodeWWW_cons, decode_encodeChar c (hl c (List.mem_cons_self _ _))]
      rw [ih fun x hx => hl x (List.mem_cons_of_mem _ hx)]

theorem encodeChar_ne (c x : Char) (hx : x ∈ encodeWWWChar c) : x ≠ '&' ∧ x ≠ '=' := by
  unfold encodeWWWChar at hx
  split at hx
  · rename_i h
    rw [List.mem_singleton.mp hx]
    obtain ⟨_, _, _, h4, h5⟩ := wwwUnreserved_ne c h
    exact ⟨h4, h5⟩
  · split at hx
    · rw [List.mem_singleton.mp hx]
      exact ⟨by decide, by decide⟩
    · rcases List.mem_cons.mp hx with rfl | hx
      · exact ⟨by decide, by decide⟩
      rcases List.mem_cons.mp hx with rfl | hx
      · exact hexDigitChar_ne _
      rcases List.mem_cons.mp hx with rfl | hx
      · exact hexDigitChar_ne _
      · cases hx

theorem encodeWWW_ne (l : List Char) (x : Char) (hx : x ∈ encodeWWW l) :
    x ≠ '&' ∧ x ≠ '=' := by
  induction l with
  | nil => cases hx
  | cons c t ih =>
      rw [encodeWWW_cons] at hx
      rcases List.mem_append.mp hx with h | h
      · exact encodeChar_ne c x h
      · exact ih h

theorem splitAmp_ne_nil (l : List Char) : splitAmp l ≠ [] := by
  cases l with
  | nil => simp [splitAmp]
  | cons c rest =>
      unfold splitAmp
      split
      · simp
      · split <;> simp

theorem splitAmp_no_amp (p : List Char) (hp : '&' ∉ p) : splitAmp p = [p] := by
  induction p with
  | nil => rfl
  | cons c rest ih =>
      have hc : ¬(c = '&') := fun he => hp (he ▸ List.mem_cons_self _ _)
      have ht : '&' ∉ rest := fun hm => hp (List.mem_cons_of_mem _ hm)
      unfold splitAmp
      rw [if_neg hc, ih ht]

theorem splitAmp_append (p l piece : List Char) (more : List (List Char))
    (hp : '&' ∉ p) (hl : splitAmp l = piece :: more) :
    splitAmp (p ++ l) = (p ++ piece) :: more := by
  induction p with
  | nil => simpa using hl
  | cons c rest ih =>
      have hc : ¬(c = '&') := fun he => hp (he ▸ List.mem_cons_self _ _)
      have ht : '&' ∉ rest := fun hm => hp (List.mem_cons_of_mem _ hm)
      rw [List.cons_append]
      unfold splitAmp
      rw [if_neg hc, ih ht]
      rfl

theorem splitAmp_joinAmp (pieces : List (List Char)) (hne : pieces ≠ [])
    (hamp : ∀ p ∈ pieces, '&' ∉ p) : splitAmp (joinAmp pieces) = pieces := by
  induction pieces with
  | nil => exact absurd rfl hne
  | cons p t ih =>
      cases t with
      | nil => exact splitAmp_no_amp p (hamp p (List.mem_cons_self _ _))
      | cons q t2 =>
          have hjoin : joinAmp (p :: q :: t2) = p ++ '&' :: joinAmp (q :: t2) := rfl
          rw [hjoin]
          have hrest : splitAmp ('&' :: joinAmp (q :: t2)) = [] :: (q :: t2) := by
            show (if ('&' : Char) = '&' then [] :: splitAmp (joinAmp (q :: t2))
              else _) = [] :: (q :: t2)
            rw [if_pos rfl, ih (by simp) fun x hx => hamp x (List.mem_cons_of_mem _ hx)]
          rw [splitAmp_append p _ [] (q :: t2) (hamp p (List.mem_cons_self _ _)) hrest]
          rw [List.append_nil]

theorem mem_splitAmp (l : List Char) (piece : List Char) (x : Char)
    (hp : piece ∈ splitAmp l) (hx : x ∈ piece) : x ∈ l := by
  induction l generalizing piece with
  | nil =>
      have : piece = [] := by simpa [splitAmp] using hp
      rw [this] at hx
      cases hx
  | cons c rest ih =>
      unfold splitAmp at hp
      by_cases hc : c = '&'
      · rw [if_pos hc] at hp
        rcases List.mem_cons.mp hp with h | h
        · rw [h] at hx; cases hx
        · exact List.mem_cons_of_mem _ (ih piece h hx)
      · rw [if_neg hc] at hp
        cases hsp : splitAmp rest with
        | nil => exact absurd hsp (splitAmp_ne_nil rest)
        | cons ph pt =>
            rw [hsp] at hp
            rcases List.mem_cons.mp hp with h | h
            · rw [h] at hx
              rcases List.mem_cons.mp hx with h' | h'
              · rw [h']; exact List.mem_cons_self _ _
              · exact List.mem_cons_of_mem _ (ih ph (hsp ▸ List.mem_cons_self _ _) h')
            · exact List.mem_cons_of_mem _ (ih piece (hsp ▸ List.mem_cons_of_mem _ h) hx)

theorem splitFirstEq_encode (n v : List Char) (hn : '=' ∉ n) :
    splitFirstEq (n ++ '=' :: v) = (n, v) := by
  unfold splitFirstEq
  have hall : ∀ x ∈ n, (fun c => decide (c ≠ '=')) x = true := by
    intro x hx
    simp only [decide_eq_true_eq]
    exact fun he => hn (he ▸ hx)
  have hd : (n ++ '=' :: v).dropWhile (fun c => c ≠ '=') = '=' :: v := by
    rw [List.dropWhile_append]
    rw [List.dropWhile_eq_nil_iff.mpr hall]
    simp
  have htw : (n ++ '=' :: v).takeWhile (fun c => c ≠ '=') = n := by
    rw [List.takeWhile_append]
    rw [List.takeWhile_eq_self_iff.mpr hall]
    simp
  rw [hd, htw]

theorem wwwPiece_ne_nil (nv : List Char × List Char) : wwwPiece nv ≠ [] := by
  unfold wwwPiece
  simp

theorem amp_notin_wwwPiece (nv : List Char × List Char) : '&' ∉ wwwPiece nv := by
  intro hm
  unfold wwwPiece at hm
  rcases List.mem_append.mp hm with h | h
  · exact (encodeWWW_ne _ _ h).1 rfl
  · rcases List.mem_cons.mp h with h | h
    · cases h
    · exact (encodeWWW_ne _ _ h).1 rfl

theorem parsePiece_wwwPiece (nv : List Char × List Char)
    (h1 : ∀ c ∈ nv.1, c.toNat < 256) (h2 : ∀ c ∈ nv.2, c.toNat < 256) :
    parsePiece (wwwPiece nv) = some nv := by
  unfold parsePiece
  rw [if_neg (by simpa using wwwPiece_ne_nil nv)]
  show some (decodeWWW (splitFirstEq (wwwPiece nv)).1, decodeWWW (splitFirstEq (wwwPiece nv)).2)
    = some nv
  unfold wwwPiece
  rw [splitFirstEq_encode _ _ (fun hm => (encodeWWW_ne _ _ hm).2 rfl)]
  rw [show (encodeWWW nv.1, encodeWWW nv.2).1 = encodeWWW nv.1 from rfl]
  rw [show (encodeWWW nv.1, encodeWWW nv.2).2 = encodeWWW nv.2 from rfl]
  rw [decode_encode _ h1, decode_encode _ h2]

theorem filterMap_wwwPiece (pairs : List (List Char × List Char))
    (hp : ∀ nv ∈ pairs, (∀ c ∈ nv.1, c.toNat < 256) ∧ ∀ c ∈ nv.2, c.toNat < 256) :
    (pairs.map wwwPiece).filterMap parsePiece = pairs := by
  induction pairs with
  | nil => rfl
  | cons nv t ih =>
      rw [List.map_cons, List.filterMap_cons]
      rw [parsePiece_wwwPiece nv (hp nv (List.mem_cons_self _ _)).1
        (hp nv (List.mem_cons_self _ _)).2]
      rw [ih fun x hx => hp x (List.mem_cons_of_mem _ hx)]

theorem parseQuery_serializeQuery (pairs : List (List Char × List Char))
    (hp : ∀ nv ∈ pairs, (∀ c ∈ nv.1, c.toNat < 256) ∧ ∀ c ∈ nv.2, c.toNat < 256) :
    parseQuery (serializeQuery pairs) = pairs := by
  cases pairs with
  | nil => rfl
  | cons p t =>
      unfold parseQuery serializeQuery
      rw [splitAmp_joinAmp _ (by simp) (by
        intro piece hpiece
        obtain ⟨nv, _, hnv⟩ := List.mem_map.mp hpiece
        exact hnv ▸ amp_notin_wwwPiece nv)]
      exact filterMap_wwwPiece (p :: t) hp

theorem decodeWWW_toNat_lt (l : List Char) (hl : ∀ c ∈ l, c.toNat < 256) :
    ∀ x ∈ decodeWWW l, x.toNat < 256 := by
  induction l using decodeWWW.induct with
  | case1 => intro x hx; cases hx
  | case2 rest ih =>
      rw [decodeWWW_plus]
      intro x hx
      rcases List.mem_cons.mp hx with rfl | hx
      · decide
      · exact ih (fun c hc => hl c (List.mem_cons_of_mem _ hc)) x hx
  | case3 a b rest hhex ih =>
      rw [decodeWWW_hex _ _ _ hhex]
      intro x hx
      have hab := Bool.and_eq_true_iff.mp hhex
      rcases List.mem_cons.mp hx with rfl | hx
      · have ha := hexVal_lt a hab.1
        have hb := hexVal_lt b hab.2
        rw [char_toNat_ofNat_lt _ (by omega)]
        omega
      · exact ih (fun c hc =>
          hl c (List.mem_cons_of_mem _ (List.mem_cons_of_mem _ (List.mem_cons_of_mem _ hc))))
          x hx
  | case4 a b rest hhex ih =>
      rw [decodeWWW.eq_def]
      simp only [hhex, if_false]
      intro x hx
      rcases List.mem_cons.mp hx with rfl | hx
      · exact hl _ (List.mem_cons_self _ _)
      · exact ih (fun c hc => hl c (List.mem_cons_of_mem _ hc)) x hx
  | case5 c rest hplus hpct ih =>
      have hc1 : c ≠ '+' := fun he => hplus he
      have hred : decodeWWW (c :: rest) = c :: decodeWWW rest := by
        by_cases h : c = '%'
        · subst h
          cases rest with
          | nil => rw [decodeWWW.eq_def]; rfl
          | cons a t =>
              cases t with
              | nil => rw [decodeWWW.eq_def]; rfl
              | cons b t2 => exact (hpct a b t2 rfl rfl).elim
        · exact decodeWWW_cons_plain c hc1 h rest
      rw [hred]
      intro x hx
      rcases List.mem_cons.mp hx with rfl | hx
      · exact hl _ (List.mem_cons_self _ _)
      · exact ih (fun c' hc' => hl c' (List.mem_cons_of_mem _ hc')) x hx

theorem splitFirstEq_mem (piece : List Char) (x : Char) :
    (x ∈ (splitFirstEq piece).1 → x ∈ piece) ∧ (x ∈ (splitFirstEq piece).2 → x ∈ piece) := by
  unfold splitFirstEq
  cases hd : piece.dropWhile (fun c => c ≠ '=') with
  | nil => exact ⟨fun h => h, fun h => by cases h⟩
  | cons y tl =>
      constructor
      · intro h
        exact (List.takeWhile_prefix _).subset h
      · intro h
        have : x ∈ piece.dropWhile (fun c => c ≠ '=') := by
          rw [hd]; exact List.mem_cons_of_mem _ h
        exact (List.dropWhile_suffix _).subset this

theorem parseQuery_toNat_lt (q : List Char) (hq : ∀ c ∈ q, c.toNat < 256) :
    ∀ nv ∈ parseQuery q, (∀ c ∈ nv.1, c.toNat < 256) ∧ ∀ c ∈ nv.2, c.toNat < 256 := by
  intro nv hnv
  obtain ⟨piece, hpiece, hparse⟩ := List.mem_filterMap.mp hnv
  unfold parsePiece at hparse
  split at hparse
  · cases hparse
  · injection hparse with hparse
    have hchars : ∀ c ∈ piece, c.toNat < 256 :=
      fun c hc => hq c (mem_splitAmp q piece c hpiece hc)
    rw [← hparse]
    constructor
    · exact decodeWWW_toNat_lt _ (fun c hc => hchars c ((splitFirstEq_mem piece c).1 hc))
    · exact decodeWWW_toNat_lt _ (fun c hc => hchars c ((splitFirstEq_mem piece c).2 hc))

/-- C2 counterexample: for the inbound query import&force the code strips
force through URLSearchParams, re-serializing the surviving parameter as
import= rather than preserving its exact textual form import, so the
forwarded query is not the inbound query minus the reserved parameters. -/
theorem upstream_query_textual_counterexample :
    upstreamQuery ("import&force").toList = ("import=").toList ∧
      specStripQuery ("import&force").toList = ("import").toList ∧
      upstreamQuery ("import&force").toList ≠ specStripQuery ("import&force").toList := by
  refine ⟨by decide, by decide, by decide⟩

/-- C2 amended: when neither force nor a non-empty prompt is present the
forwarded query is textually identical to the inbound query (prompt with
an empty value is not stripped); when either is present, the forwarded
query parses to exactly the inbound pairs minus every force and prompt
entry, in order, but re-serialized in canonical form-urlencoded encoding
rather than their original textual form. -/
theorem upstream_query_strips_reserved_params (q : List Char)
    (hq : ∀ c ∈ q, c.toNat < 128) :
    ((hasForceParam q || promptTruthy q) = false → upstreamQuery q = q) ∧
      ((hasForceParam q || promptTruthy q) = true →
        parseQuery (upstreamQuery q) = (parseQuery q).filter keepPair) := by
  constructor
  · intro h
    simp [upstreamQuery, h]
  · intro h
    have hq256 : ∀ c ∈ q, c.toNat < 256 := fun c hc => by have := hq c hc; omega
    simp only [upstreamQuery, h, if_true]
    apply parseQuery_serializeQuery
    intro nv hnv
    exact parseQuery_toNat_lt q hq256 nv (List.mem_filter.mp hnv).1

/-- C2 witness: the amended statement applied to a concrete query with one
surviving parameter and a force flag. -/
theorem upstream_query_strips_reserved_params_witness :
    parseQuery (upstreamQuery ("a=1&force&b=2").toList) =
      (parseQuery ("a=1&force&b=2").toList).filter keepPair :=
  (upstream_query_strips_reserved_params ("a=1&force&b=2").toList (by decide)).2 (by decide)

end AiProxy
